import Mathlib

/-!
# Verification of `copt/stochastic.py` (SAGA-family stochastic optimizers)

Shallow embedding of the epoch-iteration engines (dense, sparse
block-separable, primal-dual) and the outer driver loops of
`copt/stochastic.py`, together with the two standalone helpers
(`compute_step_size`, `_debiasing_vec`).

Modelling conventions:
* machine floats become exact rationals (`ℚ`);
* numeric vectors (`x`, `memory_gradient`, `gradient_average`, …) become
  total functions `Nat → ℚ`, mutated by functional update;
* external collaborators (the caller-supplied loss derivative `f_prime`,
  the proximal operators, numpy's `linalg.norm`, and
  `copt.utils.norm_rows`) are parameters of the model;
* Python exceptions (`NotImplementedError`, the unbound-local failure)
  become `Except String`;
* a Python function body without a `return` statement evaluates to
  `None`, embedded as `Option.none`.
-/

/-- Helper projecting the success flag out of a driver result that may have
failed with a raised exception (an `Except.error`). -/
def resultSuccess {R : Type} (success : R → Bool) : Except String R → Bool
  | Except.ok r => success r
  | Except.error _ => false

/-- Slice `l[p:q]` of a list, as used for the compressed-row slices
`A_indices[A_indptr[i]:A_indptr[i+1]]` in the source. -/
def pySlice {α : Type} (l : List α) (p q : Nat) : List α :=
  (l.take q).drop p

/-- A sparse matrix in compressed-row (CSR) form: value array, column-index
array, row-offset array — the triple `(A.data, A.indices, A.indptr)` the
source extracts from a `scipy.sparse.csr_matrix`. -/
structure CSR where
  data : List ℚ
  indices : List Nat
  indptr : List Nat

/-- The column indices of row `i`: `A_indices[A_indptr[i]:A_indptr[i+1]]`. -/
def CSR.rowIndices (A : CSR) (i : Nat) : List Nat :=
  pySlice A.indices (A.indptr.getD i 0) (A.indptr.getD (i + 1) 0)

/-- The nonzero values of row `i`: `A_data[A_indptr[i]:A_indptr[i+1]]`. -/
def CSR.rowData (A : CSR) (i : Nat) : List ℚ :=
  pySlice A.data (A.indptr.getD i 0) (A.indptr.getD (i + 1) 0)

/-! ## `compute_step_size` -/

/-- Embedding of `compute_step_size(loss, A, step_size_factor)`.
`copt.utils.norm_rows(A)` is an external collaborator (the max row norm of
`A`), so its value `normRowsA` is a parameter.  The Python
`raise NotImplementedError` becomes `Except.error`. -/
def compute_step_size (loss : String) (normRowsA : ℚ) (step_size_factor : ℚ) :
    Except String ℚ :=
  if loss = "logistic" then
    Except.ok (4 / (normRowsA * step_size_factor))
  else if loss = "squared" then
    Except.ok (1 / (normRowsA * step_size_factor))
  else
    Except.error ("loss " ++ loss ++ " is not implemented")

/-! ## `_debiasing_vec` -/

/-- First pass of `_debiasing_vec`: for every sample `i` and every column
index `j` in row `i`, do `d[j] += 1`. -/
def debiasingCounts (A_indices A_indptr : List Nat) (n_samples : Nat) :
    Nat → ℚ :=
  (List.range n_samples).foldl
    (fun d i =>
      (pySlice A_indices (A_indptr.getD i 0) (A_indptr.getD (i + 1) 0)).foldl
        (fun d j => Function.update d j (d j + 1)) d)
    (fun _ => 0)

/-- Embedding of `_debiasing_vec(A_indices, A_indptr, n_samples, n_features)`:
count per-feature nonzero occurrences, then replace each nonzero count `c`
by `n_samples / c`. -/
def debiasing_vec (A_indices A_indptr : List Nat) (n_samples : Nat) :
    Nat → ℚ :=
  let d := debiasingCounts A_indices A_indptr n_samples
  fun j => if d j ≠ 0 then (n_samples : ℚ) / d j else d j

/-- One row's counting pass adds that row's multiplicity of `j` to `d j`. -/
theorem rowCount_foldl (l : List Nat) (d : Nat → ℚ) (j : Nat) :
    (l.foldl (fun d j => Function.update d j (d j + 1)) d) j
      = d j + l.count j := by
  induction l generalizing d with
  | nil => simp
  | cons a t ih =>
      simp only [List.foldl_cons, ih, List.count_cons]
      by_cases h : a = j
      · subst h
        simp [Function.update]
        try ring
      · have h' : ¬ (j = a) := fun hh => h hh.symm
        simp [Function.update, h, h']

/-- After the counting pass over a list of samples, `d j` holds the total
number of occurrences of `j` across the rows of those samples. -/
theorem debiasingCounts_foldl (rows : List Nat) (A_indices A_indptr : List Nat)
    (d : Nat → ℚ) (j : Nat) :
    (rows.foldl
      (fun d i =>
        (pySlice A_indices (A_indptr.getD i 0) (A_indptr.getD (i + 1) 0)).foldl
          (fun d j => Function.update d j (d j + 1)) d) d) j
      = d j + ((rows.map (fun i =>
          ((pySlice A_indices (A_indptr.getD i 0)
            (A_indptr.getD (i + 1) 0)).count j : ℚ))).sum) := by
  induction rows generalizing d with
  | nil => simp
  | cons a t ih =>
      simp only [List.foldl_cons, List.map_cons, List.sum_cons, ih,
        rowCount_foldl]
      ring

/-- Indicator sums over a list of samples: summing each row's multiplicity of
`j` (rows duplicate-free) counts the rows containing `j`. -/
theorem sum_rowCount_eq_countP (row : Nat → List Nat) (j : Nat) :
    ∀ l : List Nat, (∀ i ∈ l, (row i).Nodup) →
      ((l.map (fun i => ((row i).count j : ℚ))).sum)
        = (l.countP (fun i => decide (j ∈ row i)) : ℚ) := by
  intro l
  induction l with
  | nil => simp
  | cons a t ih =>
      intro h
      have ha : (row a).Nodup := h a (List.mem_cons_self a t)
      have ht : ∀ i ∈ t, (row i).Nodup := fun i hi => h i (List.mem_cons_of_mem a hi)
      simp only [List.map_cons, List.sum_cons, List.countP_cons, ih ht]
      by_cases hm : j ∈ row a
      · rw [List.count_eq_one_of_mem ha hm]
        simp [hm]
        ring
      · rw [List.count_eq_zero_of_not_mem hm]
        simp [hm]

/-- The counting pass of `_debiasing_vec` computes, at each feature `j`, the
number of rows whose nonzero support contains `j`. -/
theorem debiasingCounts_eq (A_indices A_indptr : List Nat) (n : Nat)
    (hnodup : ∀ i < n,
      (pySlice A_indices (A_indptr.getD i 0) (A_indptr.getD (i + 1) 0)).Nodup)
    (j : Nat) :
    debiasingCounts A_indices A_indptr n j
      = ((List.range n).countP (fun i =>
          decide (j ∈ pySlice A_indices (A_indptr.getD i 0)
            (A_indptr.getD (i + 1) 0))) : ℚ) := by
  unfold debiasingCounts
  rw [debiasingCounts_foldl]
  rw [sum_rowCount_eq_countP
    (fun i => pySlice A_indices (A_indptr.getD i 0) (A_indptr.getD (i + 1) 0)) j
    (List.range n) (fun i hi => hnodup i (List.mem_range.mp hi))]
  simp

/-- C9 — Debiasing helper correctness: for a CSR matrix with `n` rows (each
row's column indices duplicate-free, as CSR canonical form guarantees), for
every feature `j`, writing `k` for the number of rows whose support contains
`j`, the helper returns `n / k` when `k > 0` and `0` when `k = 0`. -/
theorem debiasing_vec_correct (A_indices A_indptr : List Nat) (n : Nat)
    (hnodup : ∀ i < n,
      (pySlice A_indices (A_indptr.getD i 0) (A_indptr.getD (i + 1) 0)).Nodup)
    (j : Nat) :
    debiasing_vec A_indices A_indptr n j
      = (if ((List.range n).countP (fun i =>
            decide (j ∈ pySlice A_indices (A_indptr.getD i 0)
              (A_indptr.getD (i + 1) 0)))) = 0
         then 0
         else (n : ℚ) / ((List.range n).countP (fun i =>
            decide (j ∈ pySlice A_indices (A_indptr.getD i 0)
              (A_indptr.getD (i + 1) 0))) : ℚ)) := by
  have hc := debiasingCounts_eq A_indices A_indptr n hnodup j
  unfold debiasing_vec
  simp only [hc]
  set k := (List.range n).countP (fun i =>
      decide (j ∈ pySlice A_indices (A_indptr.getD i 0)
        (A_indptr.getD (i + 1) 0))) with hkdef
  by_cases hk : k = 0
  · rw [hk]
    norm_num
  · have hne : (k : ℚ) ≠ 0 := by exact_mod_cast hk
    simp only [ne_eq, hne, not_false_eq_true, if_true, hk, if_false]

/-- Witness for C9 on the concrete CSR matrix with rows `{0, 2}` and `{0}`
(two samples, feature 2 present in exactly one row). -/
theorem debiasing_vec_correct_witness :
    (∀ i < 2, (pySlice [0, 2, 0] (([0, 2, 3] : List Nat).getD i 0)
        (([0, 2, 3] : List Nat).getD (i + 1) 0)).Nodup) ∧
    debiasing_vec [0, 2, 0] [0, 2, 3] 2 2
      = (if ((List.range 2).countP (fun i =>
            decide (2 ∈ pySlice [0, 2, 0] (([0, 2, 3] : List Nat).getD i 0)
              (([0, 2, 3] : List Nat).getD (i + 1) 0)))) = 0
         then 0
         else (2 : ℚ) / ((List.range 2).countP (fun i =>
            decide (2 ∈ pySlice [0, 2, 0] (([0, 2, 3] : List Nat).getD i 0)
              (([0, 2, 3] : List Nat).getD (i + 1) 0))) : ℚ)) :=
  ⟨by decide, debiasing_vec_correct [0, 2, 0] [0, 2, 3] 2 (by decide) 2⟩

/-- C8 — Step-size helper: `"logistic"` yields `4 / (max-row-norm · factor)`,
`"squared"` yields `1 / (max-row-norm · factor)`, and any other loss name
yields the not-implemented failure. -/
theorem compute_step_size_spec (normRowsA factor : ℚ) (loss : String)
    (h1 : loss ≠ "logistic") (h2 : loss ≠ "squared") :
    compute_step_size "logistic" normRowsA factor
        = Except.ok (4 / (normRowsA * factor)) ∧
    compute_step_size "squared" normRowsA factor
        = Except.ok (1 / (normRowsA * factor)) ∧
    compute_step_size loss normRowsA factor
        = Except.error ("loss " ++ loss ++ " is not implemented") := by
  refine ⟨rfl, rfl, ?_⟩
  simp [compute_step_size, h1, h2]

/-- Witness for C8 at the unrecognized loss name `"huber"` with
max-row-norm 2 and factor 4. -/
theorem compute_step_size_spec_witness :
    ("huber" ≠ "logistic") ∧ ("huber" ≠ "squared") ∧
    (compute_step_size "logistic" 2 4 = Except.ok (4 / (2 * 4)) ∧
     compute_step_size "squared" 2 4 = Except.ok (1 / (2 * 4)) ∧
     compute_step_size "huber" 2 4
        = Except.error ("loss " ++ "huber" ++ " is not implemented")) :=
  ⟨by decide, by decide, compute_step_size_spec 2 4 "huber" (by decide) (by decide)⟩

/-! ## Dense SAGA epoch engine (`_epoch_factory_SAGA`) -/

/-- The fixed, read-only problem data captured by the closure
`_epoch_factory_SAGA(fun, f_prime, g_prox, A, b, beta)`: a dense design
matrix (`Arow i j` = `A[i][j]`), targets `b`, the caller-supplied loss
derivative `f_prime`, the proximal operator `g_prox`, and the
regularization weight `beta`. -/
structure DenseProblem where
  nSamples : Nat
  Arow : Nat → Nat → ℚ
  b : Nat → ℚ
  fPrime : (Nat → ℚ) → (Nat → ℚ) → ℚ → ℚ
  gProx : ℚ → (Nat → ℚ) → (Nat → ℚ)
  beta : ℚ

/-- The shared mutable state of one SAGA run: the live iterate `x`, the
per-sample cached derivatives `memory_gradient`, and the running
control-variate `gradient_average`. -/
structure SagaState where
  x : Nat → ℚ
  memGrad : Nat → ℚ
  gradAvg : Nat → ℚ

/-- One loop body of `epoch_iteration_template` in `_epoch_factory_SAGA`:
```
grad_i = f_prime(x, A[i], b[i])
incr = (grad_i - memory_gradient[i]) * A[i]
x[:] = g_prox(beta * step_size, x - step_size * (incr + gradient_average))
gradient_average += incr / n_samples
memory_gradient[i] = grad_i
```
-/
def denseStep (P : DenseProblem) (step_size : ℚ) (st : SagaState) (i : Nat) :
    SagaState :=
  let grad_i := P.fPrime st.x (P.Arow i) (P.b i)
  let incr : Nat → ℚ := fun j => (grad_i - st.memGrad i) * P.Arow i j
  { x := P.gProx (P.beta * step_size)
      (fun j => st.x j - step_size * (incr j + st.gradAvg j)),
    memGrad := Function.update st.memGrad i grad_i,
    gradAvg := fun j => st.gradAvg j + incr j / (P.nSamples : ℚ) }

/-- One dense epoch: `for i in sample_indices:` over the loop body, strictly
in the order of `sample_indices`. -/
def denseEpoch (P : DenseProblem) (step_size : ℚ) (st : SagaState)
    (sample_indices : List Nat) : SagaState :=
  sample_indices.foldl (denseStep P step_size) st

/-- C2 — Dense epoch contract: one invocation of the dense engine processes
the supplied permutation front to back, one visit per entry (the two fold
equations), and each visit performs, on the state current at that visit:
the full-vector proximal update of `x` from the old `gradient_average`,
then the `gradient_average` increment by `incr / n_samples`, then the
`memory_gradient[i] = grad_i` write. -/
theorem dense_epoch_contract (P : DenseProblem) (s : ℚ) (st : SagaState)
    (i : Nat) (rest : List Nat) :
    denseEpoch P s st [] = st ∧
    denseEpoch P s st (i :: rest) = denseEpoch P s (denseStep P s st i) rest ∧
    (denseStep P s st i).x
      = P.gProx (P.beta * s)
          (fun j => st.x j
            - s * ((P.fPrime st.x (P.Arow i) (P.b i) - st.memGrad i)
                     * P.Arow i j
                   + st.gradAvg j)) ∧
    (denseStep P s st i).gradAvg
      = (fun j => st.gradAvg j
          + (P.fPrime st.x (P.Arow i) (P.b i) - st.memGrad i) * P.Arow i j
              / (P.nSamples : ℚ)) ∧
    (denseStep P s st i).memGrad
      = Function.update st.memGrad i (P.fPrime st.x (P.Arow i) (P.b i)) :=
  ⟨rfl, rfl, rfl, rfl, rfl⟩

/-- With step size 0 the proximal argument collapses to `x` itself, so one
visit leaves `x` unchanged (the proximal operator at step 0 being the
identity, which is the defining property of a proximal operator there and
holds for the code's identity default). -/
theorem denseStep_zero_x (P : DenseProblem) (st : SagaState) (i : Nat)
    (hprox : ∀ v : Nat → ℚ, P.gProx 0 v = v) :
    (denseStep P 0 st i).x = st.x := by
  unfold denseStep
  simp only [mul_zero, zero_mul, sub_zero]
  exact hprox st.x

/-- C7 — Zero-step no-op: for every starting state (weights, memory
gradients, gradient average), every sample sequence, and every proximal
operator (i.e. any `g_prox` that is the identity at step 0, as every
proximal operator is), one dense epoch with step size 0 leaves the weight
vector unchanged. -/
theorem dense_epoch_zero_step (P : DenseProblem) (st : SagaState)
    (inds : List Nat) (hprox : ∀ v : Nat → ℚ, P.gProx 0 v = v) :
    (denseEpoch P 0 st inds).x = st.x := by
  induction inds generalizing st with
  | nil => rfl
  | cons i t ih =>
      show (denseEpoch P 0 (denseStep P 0 st i) t).x = st.x
      rw [ih (denseStep P 0 st i)]
      exact denseStep_zero_x P st i hprox

/-- A concrete one-sample dense problem used to instantiate theorems with
hypotheses: `A = [[1]]`, `b = [0]`, constant derivative 1, identity prox. -/
def exDenseP : DenseProblem :=
  { nSamples := 1, Arow := fun _ _ => 1, b := fun _ => 0,
    fPrime := fun _ _ _ => 1, gProx := fun _ v => v, beta := 1 }

/-- Witness for C7: the concrete problem `exDenseP`, starting weights
constantly 5, sample sequence `[0, 0]`. -/
theorem dense_epoch_zero_step_witness :
    (∀ v : Nat → ℚ, exDenseP.gProx 0 v = v) ∧
    (denseEpoch exDenseP 0 ⟨fun _ => 5, fun _ => 0, fun _ => 0⟩ [0, 0]).x
      = (⟨fun _ => 5, fun _ => 0, fun _ => 0⟩ : SagaState).x :=
  ⟨fun _ => rfl,
   dense_epoch_zero_step exDenseP ⟨fun _ => 5, fun _ => 0, fun _ => 0⟩ [0, 0]
     (fun _ => rfl)⟩

/-- One dense visit preserves the control-variate identity
`gradient_average = (1/n) Σ_k memory_gradient[k] · A[k]` (exact
arithmetic). -/
theorem denseStep_gradAvg_inv (P : DenseProblem) (s : ℚ) (st : SagaState)
    (i : Nat) (hi : i < P.nSamples)
    (hinv : ∀ j, st.gradAvg j
      = (∑ k in Finset.range P.nSamples, st.memGrad k * P.Arow k j)
          / (P.nSamples : ℚ)) :
    ∀ j, (denseStep P s st i).gradAvg j
      = (∑ k in Finset.range P.nSamples,
          (denseStep P s st i).memGrad k * P.Arow k j) / (P.nSamples : ℚ) := by
  intro j
  have hmem : i ∈ Finset.range P.nSamples := Finset.mem_range.mpr hi
  set g := P.fPrime st.x (P.Arow i) (P.b i) with hg
  have hsum : (∑ k in Finset.range P.nSamples,
      (Function.update st.memGrad i g) k * P.Arow k j)
      = g * P.Arow i j
        + ∑ k in (Finset.range P.nSamples).erase i, st.memGrad k * P.Arow k j := by
    rw [← Finset.add_sum_erase _ _ hmem]
    congr 1
    · simp [Function.update]
    · apply Finset.sum_congr rfl
      intro k hk
      have hki : k ≠ i := (Finset.mem_erase.mp hk).1
      simp [Function.update, hki]
  have hold : (∑ k in Finset.range P.nSamples, st.memGrad k * P.Arow k j)
      = st.memGrad i * P.Arow i j
        + ∑ k in (Finset.range P.nSamples).erase i, st.memGrad k * P.Arow k j :=
    (Finset.add_sum_erase _ _ hmem).symm
  show st.gradAvg j + (g - st.memGrad i) * P.Arow i j / (P.nSamples : ℚ)
      = (∑ k in Finset.range P.nSamples,
          (Function.update st.memGrad i g) k * P.Arow k j) / (P.nSamples : ℚ)
  rw [hsum, hinv j, hold, div_add_div_same]
  congr 1
  ring

/-- One dense epoch preserves the control-variate identity, provided every
visited index is a valid sample index. -/
theorem denseEpoch_gradAvg_inv (P : DenseProblem) (s : ℚ) :
    ∀ (inds : List Nat) (st : SagaState),
      (∀ i ∈ inds, i < P.nSamples) →
      (∀ j, st.gradAvg j
        = (∑ k in Finset.range P.nSamples, st.memGrad k * P.Arow k j)
            / (P.nSamples : ℚ)) →
      ∀ j, (denseEpoch P s st inds).gradAvg j
        = (∑ k in Finset.range P.nSamples,
            (denseEpoch P s st inds).memGrad k * P.Arow k j)
              / (P.nSamples : ℚ) := by
  intro inds
  induction inds with
  | nil => intro st _ hinv; exact hinv
  | cons i t ih =>
      intro st hvalid hinv
      have hi : i < P.nSamples := hvalid i (List.mem_cons_self i t)
      have ht : ∀ a ∈ t, a < P.nSamples :=
        fun a ha => hvalid a (List.mem_cons_of_mem i ha)
      exact ih (denseStep P s st i) ht (denseStep_gradAvg_inv P s st i hi hinv)

/-- C3 — Control-variate consistency: one worker, exact arithmetic, starting
from `memory_gradient = 0` and `gradient_average = 0`: after every sample
step of the dense engine (the state after the first `m` visits of any valid
sample sequence, hence also after any number of full epochs), the running
`gradient_average` equals `(1/n_samples) · Σ_k memory_gradient[k] · A[k]`,
where `memory_gradient` is the table of derivatives cached at each sample's
most recent visit (still 0 for never-visited samples). -/
theorem control_variate_consistency (P : DenseProblem) (s : ℚ)
    (x0 : Nat → ℚ) (inds : List Nat)
    (hvalid : ∀ i ∈ inds, i < P.nSamples) :
    ∀ (m : Nat) (j : Nat),
      (denseEpoch P s ⟨x0, fun _ => 0, fun _ => 0⟩ (inds.take m)).gradAvg j
        = (∑ k in Finset.range P.nSamples,
            (denseEpoch P s ⟨x0, fun _ => 0, fun _ => 0⟩ (inds.take m)).memGrad k
              * P.Arow k j) / (P.nSamples : ℚ) := by
  intro m
  have hsub : ∀ i ∈ inds.take m, i < P.nSamples :=
    fun i hi => hvalid i (List.take_subset m inds hi)
  have hzero : ∀ j, (0 : ℚ)
      = (∑ k in Finset.range P.nSamples, (0 : ℚ) * P.Arow k j)
          / (P.nSamples : ℚ) := by
    intro j
    simp
  exact denseEpoch_gradAvg_inv P s (inds.take m)
    ⟨x0, fun _ => 0, fun _ => 0⟩ hsub hzero

/-- Witness for C3: the concrete problem `exDenseP`, start 5, sequence
`[0, 0]`, checked after both visits at feature 0. -/
theorem control_variate_consistency_witness :
    (∀ i ∈ [0, 0], i < exDenseP.nSamples) ∧
    (denseEpoch exDenseP 1 ⟨fun _ => 5, fun _ => 0, fun _ => 0⟩
        ([0, 0].take 2)).gradAvg 0
      = (∑ k in Finset.range exDenseP.nSamples,
          (denseEpoch exDenseP 1 ⟨fun _ => 5, fun _ => 0, fun _ => 0⟩
            ([0, 0].take 2)).memGrad k * exDenseP.Arow k 0)
          / (exDenseP.nSamples : ℚ) :=
  ⟨by decide,
   control_variate_consistency exDenseP 1 (fun _ => 5) [0, 0] (by decide) 2 0⟩

/-! ## Primal-dual (PSSAGA) epoch engine (`_epoch_factory_PSSAGA`) -/

/-- Problem data captured by `_epoch_factory_PSSAGA(fun, f_prime, g_prox,
h_prox, A, b)`: dense rows, targets, the loss value `fun`, its derivative
`f_prime`, and the two proximal operators. -/
structure PDProblem where
  nSamples : Nat
  Arow : Nat → Nat → ℚ
  b : Nat → ℚ
  floss : (Nat → ℚ) → (Nat → ℚ) → ℚ → ℚ
  fPrime : (Nat → ℚ) → (Nat → ℚ) → ℚ → ℚ
  gProx : ℚ → (Nat → ℚ) → (Nat → ℚ)
  hProx : ℚ → (Nat → ℚ) → (Nat → ℚ)

/-- One loop body of the primal-dual `epoch_iteration_template`, with fixed
splitting weights `beta = gamma = 1`; the state's `x` slot holds the
auxiliary variable `y` of the source. -/
def pssagaStep (P : PDProblem) (step_size : ℚ) (st : SagaState) (i : Nat) :
    SagaState :=
  let beta : ℚ := 1
  let gamma : ℚ := 1
  let x := P.gProx (beta * step_size) st.x
  let grad_i := P.fPrime x (P.Arow i) (P.b i)
  let incr : Nat → ℚ := fun j => (grad_i - st.memGrad i) * P.Arow i j
  let z := P.hProx (gamma * step_size)
    (fun j => 2 * x j - st.x j - step_size * (incr j + st.gradAvg j))
  { x := fun j => st.x j - (x j - z j),
    memGrad := Function.update st.memGrad i grad_i,
    gradAvg := fun j => st.gradAvg j + incr j / (P.nSamples : ℚ) }

/-- One primal-dual epoch, in the order of `sample_indices`. -/
def pssagaEpoch (P : PDProblem) (step_size : ℚ) (st : SagaState)
    (sample_indices : List Nat) : SagaState :=
  sample_indices.foldl (pssagaStep P step_size) st

/-- The objective value accumulated by the loop of the primal-dual engine's
`full_loss`: `obj += fun(x, A[i], b[i]) / n_samples` over all samples. -/
def pssagaAccumLoss (P : PDProblem) (x : Nat → ℚ) : ℚ :=
  (List.range P.nSamples).foldl
    (fun obj i => obj + P.floss x (P.Arow i) (P.b i) / (P.nSamples : ℚ)) 0

/-- Embedding of `full_loss` in `_epoch_factory_PSSAGA`: the loop accumulates
`obj`, but the Python function body has no `return` statement, so a call
evaluates to `None` (`Option.none`) and the accumulated value is lost. -/
def pssaga_full_loss (P : PDProblem) (x : Nat → ℚ) : Option ℚ :=
  let _obj := pssagaAccumLoss P x
  none

/-- Modelled from the spec: the full-dataset loss evaluator of the
primal-dual engine as the claim states it — it "should explicitly return
the accumulated value", the average per-sample loss
`Σ_i fun(x, A[i], b[i]) / n_samples`. -/
def pssaga_full_loss_intended (P : PDProblem) (x : Nat → ℚ) : ℚ :=
  pssagaAccumLoss P x

/-- A concrete one-sample primal-dual problem: `A = [[1]]`, `b = [0]`,
constant loss 1, constant derivative 1, identity proxes. -/
def exPDP : PDProblem :=
  { nSamples := 1, Arow := fun _ _ => 1, b := fun _ => 0,
    floss := fun _ _ _ => 1, fPrime := fun _ _ _ => 1,
    gProx := fun _ v => v, hProx := fun _ v => v }

/-- C6 — the primal-dual full-loss evaluator never returns the accumulated
objective: at the concrete problem `exPDP` and `x = 0` the code's evaluator
yields `None`, while the accumulated average per-sample loss the claim says
it returns is `1`. -/
theorem pssaga_full_loss_never_returns :
    pssaga_full_loss exPDP (fun _ => 0) = none ∧
    pssaga_full_loss_intended exPDP (fun _ => 0) = 1 := by
  constructor
  · rfl
  · norm_num [pssaga_full_loss_intended, pssagaAccumLoss, exPDP, List.range_succ]

/-! ## Outer driver loops (`fmin_SAGA`, `fmin_PSSAGA`) -/

/-- The result record `optimize.OptimizeResult(x=..., success=..., nit=...)`
restricted to the fields the claims are about. -/
structure OptResult where
  x : Nat → ℚ
  success : Bool
  nit : Nat

/-- Helper projecting the reported iteration count out of a driver result. -/
def resultNit : Except String OptResult → Option Nat
  | Except.ok r => some r.nit
  | Except.error _ => none

/-- The Python loop `for it in range(n): st = epoch(it, st); if check(st):
break`, returning the final state, whether the break was taken, and the
value of the loop variable `it` after the loop (`none` when the loop never
ran, i.e. `it` was never bound). -/
def driverGo (epoch : Nat → SagaState → SagaState) (check : SagaState → Bool) :
    Nat → Nat → SagaState → SagaState × Bool × Option Nat
  | 0, it, st => (st, false, if it = 0 then none else some (it - 1))
  | n + 1, it, st =>
    let st2 := epoch it st
    if check st2 then (st2, true, some it)
    else driverGo epoch check n (it + 1) st2

/-- The state after running `n` epoch groups starting at group index `it`
(no convergence checks applied — the checks do not modify the state). -/
def iterGroups (epoch : Nat → SagaState → SagaState) :
    Nat → Nat → SagaState → SagaState
  | _, 0, st => st
  | it, n + 1, st => iterGroups epoch (it + 1) n (epoch it st)

/-- The convergence test of `fmin_SAGA`: `norm(x - g_prox(beta * step_size,
x - step_size * gradient_average)) < tol`, with numpy's Euclidean norm an
external parameter `normF`. -/
def sagaCheck (P : DenseProblem) (normF : (Nat → ℚ) → ℚ)
    (step_size tol : ℚ) (st : SagaState) : Bool :=
  decide (normF (fun j => st.x j
    - P.gProx (P.beta * step_size)
        (fun j2 => st.x j2 - step_size * st.gradAvg j2) j) < tol)

/-- The convergence test of `fmin_PSSAGA`: `norm(gradient_average) < tol`. -/
def pssagaCheck (normF : (Nat → ℚ) → ℚ) (tol : ℚ) (st : SagaState) : Bool :=
  decide (normF st.gradAvg < tol)

/-- Embedding of the driver `fmin_SAGA` (dense path, one worker per epoch
group; the random permutation drawn for group `it` is the parameter
`perms it`).  `x` starts as a copy of `x0`; `memory_gradient` and
`gradient_average` start at zero; the result record is built from the loop
variable `it`, which is unbound when `max_iter = 0` (Python raises
`UnboundLocalError`, embedded as `Except.error`). -/
def fmin_SAGA (P : DenseProblem) (normF : (Nat → ℚ) → ℚ)
    (perms : Nat → List Nat) (x0 : Nat → ℚ) (step_size tol : ℚ)
    (max_iter : Nat) : Except String OptResult :=
  let r := driverGo (fun it st => denseEpoch P step_size st (perms it))
    (sagaCheck P normF step_size tol) max_iter 0
    ⟨x0, fun _ => 0, fun _ => 0⟩
  match r.2.2 with
  | none => Except.error
      "UnboundLocalError: local variable it referenced before assignment"
  | some it => Except.ok ⟨r.1.x, r.2.1, it⟩

/-- Embedding of the driver `fmin_PSSAGA` (single worker per outer
iteration), with the same result-record construction from the loop
variable. -/
def fmin_PSSAGA (P : PDProblem) (normF : (Nat → ℚ) → ℚ)
    (perms : Nat → List Nat) (x0 : Nat → ℚ) (step_size tol : ℚ)
    (max_iter : Nat) : Except String OptResult :=
  let r := driverGo (fun it st => pssagaEpoch P step_size st (perms it))
    (pssagaCheck normF tol) max_iter 0
    ⟨x0, fun _ => 0, fun _ => 0⟩
  match r.2.2 with
  | none => Except.error
      "UnboundLocalError: local variable it referenced before assignment"
  | some it => Except.ok ⟨r.1.x, r.2.1, it⟩

/-- C10 — Zero iteration budget: with `max_iter = 0` both drivers reference
the never-bound loop variable while building the result record, so the call
fails with the unbound-local error instead of returning a record with
`success = False`. -/
theorem zero_budget_unbound_local (P : DenseProblem) (Q : PDProblem)
    (normF : (Nat → ℚ) → ℚ) (perms : Nat → List Nat) (x0 : Nat → ℚ)
    (step_size tol : ℚ) :
    fmin_SAGA P normF perms x0 step_size tol 0
      = Except.error
          "UnboundLocalError: local variable it referenced before assignment" ∧
    fmin_PSSAGA Q normF perms x0 step_size tol 0
      = Except.error
          "UnboundLocalError: local variable it referenced before assignment" :=
  ⟨rfl, rfl⟩


/-- Unfolding: a group that passes the check breaks the loop. -/
theorem driverGo_succ_pos (epoch : Nat → SagaState → SagaState)
    (check : SagaState → Bool) (n it : Nat) (st : SagaState)
    (hc : check (epoch it st) = true) :
    driverGo epoch check (n + 1) it st = (epoch it st, true, some it) := by
  simp [driverGo, hc]

/-- Unfolding: a group that fails the check continues the loop. -/
theorem driverGo_succ_neg (epoch : Nat → SagaState → SagaState)
    (check : SagaState → Bool) (n it : Nat) (st : SagaState)
    (hc : check (epoch it st) = false) :
    driverGo epoch check (n + 1) it st
      = driverGo epoch check n (it + 1) (epoch it st) := by
  simp [driverGo, hc]

/-- The loop breaks with success exactly when some group within the budget
passes the check (states are unaffected by the checks). -/
theorem driverGo_success_iff (epoch : Nat → SagaState → SagaState)
    (check : SagaState → Bool) :
    ∀ (n it : Nat) (st : SagaState),
      ((driverGo epoch check n it st).2.1 = true
        ↔ ∃ k < n, check (iterGroups epoch it (k + 1) st) = true) := by
  intro n
  induction n with
  | zero =>
      intro it st
      simp [driverGo]
  | succ n ih =>
      intro it st
      cases hc : check (epoch it st) with
      | true =>
          rw [driverGo_succ_pos epoch check n it st hc]
          constructor
          · intro _
            exact ⟨0, Nat.succ_pos n, by simpa [iterGroups] using hc⟩
          · intro _
            rfl
      | false =>
          rw [driverGo_succ_neg epoch check n it st hc]
          rw [ih (it + 1) (epoch it st)]
          constructor
          · rintro ⟨k, hk, hck⟩
            exact ⟨k + 1, Nat.succ_lt_succ hk, hck⟩
          · rintro ⟨k, hk, hck⟩
            cases k with
            | zero =>
                rw [show iterGroups epoch it 1 st = epoch it st from rfl] at hck
                rw [hck] at hc
                exact absurd hc (by simp)
            | succ k =>
                exact ⟨k, Nat.lt_of_succ_lt_succ hk, hck⟩

/-- If the loop never breaks, the final state is the full composition of the
epoch groups, success is false, and the loop variable holds the last index
run (unbound when no iteration ran). -/
theorem driverGo_exhaust (epoch : Nat → SagaState → SagaState)
    (check : SagaState → Bool) :
    ∀ (n it : Nat) (st : SagaState),
      (∀ k < n, check (iterGroups epoch it (k + 1) st) = false) →
      driverGo epoch check n it st
        = (iterGroups epoch it n st, false,
           if it + n = 0 then none else some (it + n - 1)) := by
  intro n
  induction n with
  | zero =>
      intro it st _
      simp [driverGo, iterGroups]
  | succ n ih =>
      intro it st h
      have hc : check (epoch it st) = false := by
        simpa [iterGroups] using h 0 (Nat.succ_pos n)
      have ht : ∀ k < n,
          check (iterGroups epoch (it + 1) (k + 1) (epoch it st)) = false := by
        intro k hk
        have hh := h (k + 1) (Nat.succ_lt_succ hk)
        simpa [iterGroups] using hh
      rw [driverGo_succ_neg epoch check n it st hc]
      rw [ih (it + 1) (epoch it st) ht]
      have harith : it + 1 + n = it + (n + 1) := by omega
      have hne : it + (n + 1) ≠ 0 := by omega
      have hne2 : it + 1 + n ≠ 0 := by omega
      simp only [iterGroups, harith, if_neg hne, if_neg hne2]

/-- A loop that never bound its variable did not break with success. -/
theorem driverGo_none_not_success (epoch : Nat → SagaState → SagaState)
    (check : SagaState → Bool) :
    ∀ (n it : Nat) (st : SagaState),
      (driverGo epoch check n it st).2.2 = none →
      (driverGo epoch check n it st).2.1 = false := by
  intro n
  induction n with
  | zero =>
      intro it st _
      rfl
  | succ n ih =>
      intro it st h
      cases hc : check (epoch it st) with
      | true =>
          rw [driverGo_succ_pos epoch check n it st hc] at h
          exact absurd h (by simp)
      | false =>
          rw [driverGo_succ_neg epoch check n it st hc] at h ⊢
          exact ih (it + 1) (epoch it st) h

/-- The driver's reported success flag is the loop's break flag. -/
theorem resultSuccess_fmin_SAGA (P : DenseProblem) (normF : (Nat → ℚ) → ℚ)
    (perms : Nat → List Nat) (x0 : Nat → ℚ) (step_size tol : ℚ)
    (max_iter : Nat) :
    resultSuccess OptResult.success
        (fmin_SAGA P normF perms x0 step_size tol max_iter)
      = (driverGo (fun it st => denseEpoch P step_size st (perms it))
          (sagaCheck P normF step_size tol) max_iter 0
          ⟨x0, fun _ => 0, fun _ => 0⟩).2.1 := by
  unfold fmin_SAGA
  cases h : (driverGo (fun it st => denseEpoch P step_size st (perms it))
      (sagaCheck P normF step_size tol) max_iter 0
      ⟨x0, fun _ => 0, fun _ => 0⟩).2.2 with
  | none =>
      simp only [h, resultSuccess]
      exact (driverGo_none_not_success _ _ max_iter 0 _ h).symm
  | some it =>
      simp only [h, resultSuccess]

/-- Same for the primal-dual driver. -/
theorem resultSuccess_fmin_PSSAGA (P : PDProblem) (normF : (Nat → ℚ) → ℚ)
    (perms : Nat → List Nat) (x0 : Nat → ℚ) (step_size tol : ℚ)
    (max_iter : Nat) :
    resultSuccess OptResult.success
        (fmin_PSSAGA P normF perms x0 step_size tol max_iter)
      = (driverGo (fun it st => pssagaEpoch P step_size st (perms it))
          (pssagaCheck normF tol) max_iter 0
          ⟨x0, fun _ => 0, fun _ => 0⟩).2.1 := by
  unfold fmin_PSSAGA
  cases h : (driverGo (fun it st => pssagaEpoch P step_size st (perms it))
      (pssagaCheck normF tol) max_iter 0
      ⟨x0, fun _ => 0, fun _ => 0⟩).2.2 with
  | none =>
      simp only [h, resultSuccess]
      exact (driverGo_none_not_success _ _ max_iter 0 _ h).symm
  | some it =>
      simp only [h, resultSuccess]

/-- C4 — Convergence criteria: `fmin_SAGA` reports `success = True` exactly
when, after some epoch group within the budget, the norm of the generalized
gradient mapping `x - g_prox(beta*step, x - step*gradient_average)` is
below the tolerance; `fmin_PSSAGA` reports `success = True` exactly when
the norm of `gradient_average` after some epoch group is below the
tolerance. -/
theorem convergence_criteria (P : DenseProblem) (Q : PDProblem)
    (normF : (Nat → ℚ) → ℚ) (perms : Nat → List Nat) (x0 : Nat → ℚ)
    (step_size tol : ℚ) (max_iter : Nat) :
    (resultSuccess OptResult.success
        (fmin_SAGA P normF perms x0 step_size tol max_iter) = true
      ↔ ∃ k < max_iter,
          normF (fun j =>
            (iterGroups (fun it st => denseEpoch P step_size st (perms it))
              0 (k + 1) ⟨x0, fun _ => 0, fun _ => 0⟩).x j
            - P.gProx (P.beta * step_size)
                (fun j2 =>
                  (iterGroups (fun it st => denseEpoch P step_size st (perms it))
                    0 (k + 1) ⟨x0, fun _ => 0, fun _ => 0⟩).x j2
                  - step_size *
                    (iterGroups (fun it st => denseEpoch P step_size st (perms it))
                      0 (k + 1) ⟨x0, fun _ => 0, fun _ => 0⟩).gradAvg j2) j)
            < tol)
    ∧
    (resultSuccess OptResult.success
        (fmin_PSSAGA Q normF perms x0 step_size tol max_iter) = true
      ↔ ∃ k < max_iter,
          normF ((iterGroups (fun it st => pssagaEpoch Q step_size st (perms it))
              0 (k + 1) ⟨x0, fun _ => 0, fun _ => 0⟩).gradAvg)
            < tol) := by
  constructor
  · rw [resultSuccess_fmin_SAGA,
      driverGo_success_iff _ _ max_iter 0 ⟨x0, fun _ => 0, fun _ => 0⟩]
    constructor
    · rintro ⟨k, hk, hck⟩
      exact ⟨k, hk, of_decide_eq_true hck⟩
    · rintro ⟨k, hk, hck⟩
      exact ⟨k, hk, decide_eq_true hck⟩
  · rw [resultSuccess_fmin_PSSAGA,
      driverGo_success_iff _ _ max_iter 0 ⟨x0, fun _ => 0, fun _ => 0⟩]
    constructor
    · rintro ⟨k, hk, hck⟩
      exact ⟨k, hk, of_decide_eq_true hck⟩
    · rintro ⟨k, hk, hck⟩
      exact ⟨k, hk, decide_eq_true hck⟩


/-- General form of budget exhaustion for `fmin_SAGA`: when `max_iter ≥ 1`
and no group passes the check, the driver returns normally with
`success = False`, the current weights, and `nit = max_iter - 1`. -/
theorem fmin_SAGA_exhaust (P : DenseProblem) (normF : (Nat → ℚ) → ℚ)
    (perms : Nat → List Nat) (x0 : Nat → ℚ) (step_size tol : ℚ)
    (max_iter : Nat) (hpos : 1 ≤ max_iter)
    (hnoconv : ∀ k < max_iter,
      ¬ (normF (fun j =>
          (iterGroups (fun it st => denseEpoch P step_size st (perms it))
            0 (k + 1) ⟨x0, fun _ => 0, fun _ => 0⟩).x j
          - P.gProx (P.beta * step_size)
              (fun j2 =>
                (iterGroups (fun it st => denseEpoch P step_size st (perms it))
                  0 (k + 1) ⟨x0, fun _ => 0, fun _ => 0⟩).x j2
                - step_size *
                  (iterGroups (fun it st => denseEpoch P step_size st (perms it))
                    0 (k + 1) ⟨x0, fun _ => 0, fun _ => 0⟩).gradAvg j2) j)
          < tol)) :
    fmin_SAGA P normF perms x0 step_size tol max_iter
      = Except.ok
          ⟨(iterGroups (fun it st => denseEpoch P step_size st (perms it))
              0 max_iter ⟨x0, fun _ => 0, fun _ => 0⟩).x,
           false, max_iter - 1⟩ := by
  have hcheck : ∀ k < max_iter,
      sagaCheck P normF step_size tol
        (iterGroups (fun it st => denseEpoch P step_size st (perms it))
          0 (k + 1) ⟨x0, fun _ => 0, fun _ => 0⟩) = false := by
    intro k hk
    exact decide_eq_false (hnoconv k hk)
  unfold fmin_SAGA
  rw [driverGo_exhaust _ _ max_iter 0 ⟨x0, fun _ => 0, fun _ => 0⟩ hcheck]
  have hne2 : max_iter ≠ 0 := by omega
  simp only [Nat.zero_add, if_neg hne2]

/-- C5 (amended) — Budget exhaustion is not an error: when `max_iter ≥ 1`
and no epoch group meets the tolerance, `fmin_SAGA` returns normally with
`success = False`, the current weight vector, and a reported iteration
count of `max_iter - 1` (the final value of the Python loop variable), not
`max_iter` as the original claim stated. -/
theorem budget_exhaustion_amended (P : DenseProblem) (normF : (Nat → ℚ) → ℚ)
    (perms : Nat → List Nat) (x0 : Nat → ℚ) (step_size tol : ℚ)
    (max_iter : Nat) (hpos : 1 ≤ max_iter)
    (hnoconv : ∀ k < max_iter,
      ¬ (normF (fun j =>
          (iterGroups (fun it st => denseEpoch P step_size st (perms it))
            0 (k + 1) ⟨x0, fun _ => 0, fun _ => 0⟩).x j
          - P.gProx (P.beta * step_size)
              (fun j2 =>
                (iterGroups (fun it st => denseEpoch P step_size st (perms it))
                  0 (k + 1) ⟨x0, fun _ => 0, fun _ => 0⟩).x j2
                - step_size *
                  (iterGroups (fun it st => denseEpoch P step_size st (perms it))
                    0 (k + 1) ⟨x0, fun _ => 0, fun _ => 0⟩).gradAvg j2) j)
          < tol)) :
    fmin_SAGA P normF perms x0 step_size tol max_iter
      = Except.ok
          ⟨(iterGroups (fun it st => denseEpoch P step_size st (perms it))
              0 max_iter ⟨x0, fun _ => 0, fun _ => 0⟩).x,
           false, max_iter - 1⟩ :=
  fmin_SAGA_exhaust P normF perms x0 step_size tol max_iter hpos hnoconv

/-- On the concrete problem `exDenseP` (constant derivative 1, step 1), one
epoch over `[0]` from the zero state yields `x = -1`,
`memory_gradient[0] = 1`, `gradient_average = 1`. -/
theorem exStep1 : denseEpoch exDenseP 1 ⟨fun _ => 0, fun _ => 0, fun _ => 0⟩ [0]
    = ⟨fun _ => -1, Function.update (fun _ => 0) 0 1, fun _ => 1⟩ := by
  simp only [denseEpoch, List.foldl_cons, List.foldl_nil, denseStep, exDenseP,
    SagaState.mk.injEq]
  refine ⟨?_, ?_, ?_⟩
  · funext j
    norm_num
  · trivial
  · funext j
    norm_num

/-- After that epoch the gradient-mapping norm (coordinate 0) is 1, which is
not below the tolerance 1/2: the concrete run never converges. -/
theorem exNoConv : ∀ k < 1,
    ¬ ((fun (v : Nat → ℚ) => v 0) (fun j =>
        (iterGroups (fun _ st => denseEpoch exDenseP 1 st [0])
          0 (k + 1) ⟨fun _ => 0, fun _ => 0, fun _ => 0⟩).x j
        - exDenseP.gProx (exDenseP.beta * 1)
            (fun j2 =>
              (iterGroups (fun _ st => denseEpoch exDenseP 1 st [0])
                0 (k + 1) ⟨fun _ => 0, fun _ => 0, fun _ => 0⟩).x j2
              - 1 *
                (iterGroups (fun _ st => denseEpoch exDenseP 1 st [0])
                  0 (k + 1) ⟨fun _ => 0, fun _ => 0, fun _ => 0⟩).gradAvg j2) j)
        < 1 / 2) := by
  intro k hk
  have hk0 : k = 0 := by omega
  subst hk0
  have hit1 : iterGroups (fun _ st => denseEpoch exDenseP 1 st [0]) 0 (0 + 1)
      ⟨fun _ => 0, fun _ => 0, fun _ => 0⟩
      = ⟨fun _ => -1, Function.update (fun _ => 0) 0 1, fun _ => 1⟩ := by
    show denseEpoch exDenseP 1 ⟨fun _ => 0, fun _ => 0, fun _ => 0⟩ [0] = _
    exact exStep1
  rw [hit1]
  simp only [exDenseP]
  norm_num

/-- Counterexample to C5 as stated: on `exDenseP` with permutations `[0]`,
step 1, tolerance 1/2 and `max_iter = 1`, no iteration converges (the
gradient-mapping value stays 1), yet the reported iteration count is 0, not
`max_iter = 1`.  (`normF` is `v ↦ v 0`, which coincides with the Euclidean
norm on the one-feature nonnegative gradient mapping reached here.) -/
theorem budget_exhaustion_counterexample :
    (∀ k < 1,
      ¬ ((fun (v : Nat → ℚ) => v 0) (fun j =>
          (iterGroups (fun _ st => denseEpoch exDenseP 1 st [0])
            0 (k + 1) ⟨fun _ => 0, fun _ => 0, fun _ => 0⟩).x j
          - exDenseP.gProx (exDenseP.beta * 1)
              (fun j2 =>
                (iterGroups (fun _ st => denseEpoch exDenseP 1 st [0])
                  0 (k + 1) ⟨fun _ => 0, fun _ => 0, fun _ => 0⟩).x j2
                - 1 *
                  (iterGroups (fun _ st => denseEpoch exDenseP 1 st [0])
                    0 (k + 1) ⟨fun _ => 0, fun _ => 0, fun _ => 0⟩).gradAvg j2) j)
          < 1 / 2)) ∧
    resultNit (fmin_SAGA exDenseP (fun v => v 0) (fun _ => [0])
        (fun _ => 0) 1 (1 / 2) 1) = some 0 ∧
    (0 : Nat) ≠ 1 := by
  refine ⟨exNoConv, ?_, by decide⟩
  have hres := fmin_SAGA_exhaust exDenseP (fun v => v 0) (fun _ => [0])
    (fun _ => 0) 1 (1 / 2) 1 (le_refl 1) exNoConv
  rw [hres]
  rfl

/-- Witness for the amended C5 at the same concrete never-converging input:
the driver returns `success = False` with `nit = 1 - 1 = 0`. -/
theorem budget_exhaustion_amended_witness :
    1 ≤ 1 ∧
    (∀ k < 1,
      ¬ ((fun (v : Nat → ℚ) => v 0) (fun j =>
          (iterGroups (fun _ st => denseEpoch exDenseP 1 st [0])
            0 (k + 1) ⟨fun _ => 0, fun _ => 0, fun _ => 0⟩).x j
          - exDenseP.gProx (exDenseP.beta * 1)
              (fun j2 =>
                (iterGroups (fun _ st => denseEpoch exDenseP 1 st [0])
                  0 (k + 1) ⟨fun _ => 0, fun _ => 0, fun _ => 0⟩).x j2
                - 1 *
                  (iterGroups (fun _ st => denseEpoch exDenseP 1 st [0])
                    0 (k + 1) ⟨fun _ => 0, fun _ => 0, fun _ => 0⟩).gradAvg j2) j)
          < 1 / 2)) ∧
    fmin_SAGA exDenseP (fun v => v 0) (fun _ => [0]) (fun _ => 0) 1 (1 / 2) 1
      = Except.ok
          ⟨(iterGroups (fun _ st => denseEpoch exDenseP 1 st [0])
              0 1 ⟨fun _ => 0, fun _ => 0, fun _ => 0⟩).x,
           false, 1 - 1⟩ :=
  ⟨le_refl 1, exNoConv,
   budget_exhaustion_amended exDenseP (fun v => v 0) (fun _ => [0])
     (fun _ => 0) 1 (1 / 2) 1 (le_refl 1) exNoConv⟩

/-! ## Sparse block-separable SAGA epoch engine (`_epoch_factory_sparse_SAGA`) -/

/-- Problem data captured by `_epoch_factory_sparse_SAGA(fun, f_prime,
g_prox, g_blocks, A, b, beta)`: a CSR matrix, targets, the block map
`g_blocks` (feature index → block id) and the restricted loss derivative
and proximal operator, which receive gathered subvectors as lists. -/
structure SparseProblem where
  nSamples : Nat
  nFeatures : Nat
  nBlocks : Nat
  A : CSR
  b : Nat → ℚ
  gBlocks : Nat → Nat
  fPrime : List ℚ → List ℚ → ℚ → ℚ
  gProx : ℚ → List ℚ → List ℚ
  beta : ℚ

/-- Row `i` of the block-support matrix `BS` built in the factory: the
sorted distinct block ids `g < n_blocks` such that some nonzero column `j`
of row `i` has `g_blocks[j] = g` (the CSR row of the dok matrix with
`BS[i, g_blocks[j]] = True`). -/
def BSrow (P : SparseProblem) (i : Nat) : List Nat :=
  (List.range P.nBlocks).filter
    (fun g => (P.A.rowIndices i).any (fun j => P.gBlocks j == g))

/-- Row `g` of the `reverse_blocks` matrix: the sorted feature indices `j`
with `g_blocks[j] = g`. -/
def reverseBlocksRow (P : SparseProblem) (g : Nat) : List Nat :=
  (List.range P.nFeatures).filter (fun j => P.gBlocks j == g)

/-- The per-block correction `d`: `BS.sum(0)` counts the samples touching
each block, then `d[d != 0] = n_samples / d`. -/
def blockWeight (P : SparseProblem) (g : Nat) : ℚ :=
  let c := ((List.range P.nSamples).filter (fun i => (BSrow P i).contains g)).length
  if c = 0 then 0 else (P.nSamples : ℚ) / (c : ℚ)

/-- Positional fancy-index assignment `f[idxs] = vals`. -/
def scatterList (f : Nat → ℚ) (idxs : List Nat) (vals : List ℚ) : Nat → ℚ :=
  (idxs.zip vals).foldl (fun f p => Function.update f p.1 p.2) f

/-- Shared state of the sparse engine: the three SAGA buffers plus the
epoch-local temporary accumulator `grad_est`. -/
structure SparseState where
  x : Nat → ℚ
  memGrad : Nat → ℚ
  gradAvg : Nat → ℚ
  gradEst : Nat → ℚ

/-- The body of `for g in block_idx:` — add the block-restricted
control-variate term into `grad_est`, apply the restricted prox to `x`,
then reset that block's `grad_est` entries to zero.  `ga` is the live
`gradient_average` (unchanged during the block loop). -/
def sparseBlockStep (P : SparseProblem) (step_size : ℚ) (ga : Nat → ℚ)
    (p : (Nat → ℚ) × (Nat → ℚ)) (g : Nat) : (Nat → ℚ) × (Nat → ℚ) :=
  let idx_g := reverseBlocksRow P g
  let ge2 := fun j => if j ∈ idx_g then p.2 j + ga j * blockWeight P g else p.2 j
  let xNew := scatterList p.1 idx_g
    (P.gProx (step_size * P.beta * blockWeight P g)
      (idx_g.map (fun j => p.1 j - step_size * ge2 j)))
  let ge3 := fun j => if j ∈ idx_g then 0 else ge2 j
  (xNew, ge3)

/-- One loop body of the sparse `epoch_iteration_template`: gather the row,
compute the restricted derivative, scatter the memory increment into
`grad_est`, run the per-block prox loop, then update `gradient_average`
and `memory_gradient` at the row's nonzero indices only. -/
def sparseStep (P : SparseProblem) (step_size : ℚ) (st : SparseState)
    (i : Nat) : SparseState :=
  let idx := P.A.rowIndices i
  let A_i := P.A.rowData i
  let block_idx := BSrow P i
  let grad_i := P.fPrime (idx.map st.x) A_i (P.b i)
  let ge1 := scatterList st.gradEst idx
    (A_i.map (fun a => (grad_i - st.memGrad i) * a))
  let xge := block_idx.foldl (sparseBlockStep P step_size st.gradAvg)
    (st.x, ge1)
  let ga2 := (idx.zip A_i).foldl (fun ga q =>
      Function.update ga q.1
        (ga q.1 + (grad_i - st.memGrad i) * q.2 / (P.nSamples : ℚ)))
    st.gradAvg
  { x := xge.1, memGrad := Function.update st.memGrad i grad_i,
    gradAvg := ga2, gradEst := xge.2 }

/-- One sparse epoch: `grad_est = np.zeros(n_features)` followed by
`for i in sample_indices:` over the loop body. -/
def sparseEpoch (P : SparseProblem) (step_size : ℚ)
    (x memGrad gradAvg : Nat → ℚ) (sample_indices : List Nat) : SparseState :=
  sample_indices.foldl (sparseStep P step_size)
    ⟨x, memGrad, gradAvg, fun _ => 0⟩

/-- Fancy-index assignment leaves untargeted coordinates unchanged. -/
theorem scatterList_not_mem (idxs : List Nat) :
    ∀ (vals : List ℚ) (f : Nat → ℚ) (j : Nat), j ∉ idxs →
      scatterList f idxs vals j = f j := by
  induction idxs with
  | nil =>
      intro vals f j _
      cases vals <;> rfl
  | cons a t ih =>
      intro vals f j hj
      cases vals with
      | nil => rfl
      | cons v vs =>
          have hja : j ≠ a := fun h => hj (h ▸ List.mem_cons_self a t)
          have hjt : j ∉ t := fun h => hj (List.mem_cons_of_mem a h)
          show scatterList (Function.update f a v) t vs j = f j
          rw [ih vs (Function.update f a v) j hjt]
          simp [Function.update, hja]

/-- One block visit zeroes `grad_est` on its own block and leaves the other
in-range coordinates unchanged. -/
theorem sparseBlockStep_gradEst (P : SparseProblem) (step_size : ℚ)
    (ga : Nat → ℚ) (p : (Nat → ℚ) × (Nat → ℚ)) (g : Nat) (j : Nat)
    (hj : j < P.nFeatures) :
    (sparseBlockStep P step_size ga p g).2 j
      = if P.gBlocks j = g then 0 else p.2 j := by
  unfold sparseBlockStep
  by_cases hm : P.gBlocks j = g
  · have hmem : j ∈ reverseBlocksRow P g := by
      unfold reverseBlocksRow
      exact List.mem_filter.mpr ⟨List.mem_range.mpr hj, by simp [hm]⟩
    simp [hmem, hm]
  · have hmem : j ∉ reverseBlocksRow P g := by
      intro hmem
      have h2 := (List.mem_filter.mp hmem).2
      exact hm (by simpa using h2)
    simp [hmem, hm]

/-- After the whole block loop, `grad_est` is zero on every block the loop
visited and untouched elsewhere (within the feature range). -/
theorem sparseBlockFold_gradEst (P : SparseProblem) (step_size : ℚ)
    (ga : Nat → ℚ) :
    ∀ (L : List Nat) (p : (Nat → ℚ) × (Nat → ℚ)) (j : Nat),
      j < P.nFeatures →
      (L.foldl (sparseBlockStep P step_size ga) p).2 j
        = if P.gBlocks j ∈ L then 0 else p.2 j := by
  intro L
  induction L with
  | nil =>
      intro p j _
      simp
  | cons g t ih =>
      intro p j hj
      rw [List.foldl_cons, ih (sparseBlockStep P step_size ga p g) j hj,
        sparseBlockStep_gradEst P step_size ga p g j hj]
      by_cases h1 : P.gBlocks j ∈ t
      · simp [h1]
      · by_cases h2 : P.gBlocks j = g
        · simp [h1, h2]
        · simp [h1, h2]

/-- One sample visit preserves "the accumulator is entirely zero": every
nonzero column of the row belongs to a visited block, so the block loop
resets everything the scatter wrote. -/
theorem sparseStep_gradEst_zero (P : SparseProblem) (step_size : ℚ)
    (st : SparseState) (i : Nat)
    (hblocks : ∀ j < P.nFeatures, P.gBlocks j < P.nBlocks)
    (hze : ∀ j < P.nFeatures, st.gradEst j = 0) :
    ∀ j < P.nFeatures, (sparseStep P step_size st i).gradEst j = 0 := by
  intro j hj
  show ((BSrow P i).foldl (sparseBlockStep P step_size st.gradAvg)
      (st.x, scatterList st.gradEst (P.A.rowIndices i)
        ((P.A.rowData i).map
          (fun a => (P.fPrime ((P.A.rowIndices i).map st.x) (P.A.rowData i)
              (P.b i) - st.memGrad i) * a)))).2 j = 0
  rw [sparseBlockFold_gradEst P step_size st.gradAvg (BSrow P i) _ j hj]
  by_cases hb : P.gBlocks j ∈ BSrow P i
  · simp [hb]
  · have hni : j ∉ P.A.rowIndices i := by
      intro hmem
      apply hb
      unfold BSrow
      refine List.mem_filter.mpr ⟨List.mem_range.mpr (hblocks j hj), ?_⟩
      simp only [List.any_eq_true]
      exact ⟨j, hmem, by simp⟩
    simp only [hb, if_false]
    rw [scatterList_not_mem _ _ _ _ hni]
    exact hze j hj

/-- The zero-accumulator invariant is preserved along any valid sample
sequence. -/
theorem sparseFold_gradEst_zero (P : SparseProblem) (step_size : ℚ) :
    ∀ (inds : List Nat) (st : SparseState),
      (∀ j < P.nFeatures, P.gBlocks j < P.nBlocks) →
      (∀ j < P.nFeatures, st.gradEst j = 0) →
      ∀ j < P.nFeatures,
        (inds.foldl (sparseStep P step_size) st).gradEst j = 0 := by
  intro inds
  induction inds with
  | nil =>
      intro st _ hze
      exact hze
  | cons i t ih =>
      intro st hblocks hze
      exact ih (sparseStep P step_size st i) hblocks
        (sparseStep_gradEst_zero P step_size st i hblocks hze)

/-- C1 — Sparse accumulator invariant: for any CSR matrix, any contiguous
zero-based block map (every feature's block id lies in `0..n_blocks-1`),
any sample sequence and any step size, the temporary accumulator `grad_est` is
entirely zero immediately before and after every sample is processed:
after the first `m` visits of the epoch (for every `m`, including `m = 0`
before the first visit and `m = length` after the last), every in-range
coordinate of `grad_est` is zero. -/
theorem sparse_accumulator_invariant (P : SparseProblem) (step_size : ℚ)
    (x0 mg0 ga0 : Nat → ℚ) (inds : List Nat)
    (hblocks : ∀ j < P.nFeatures, P.gBlocks j < P.nBlocks) :
    ∀ (m : Nat), ∀ j < P.nFeatures,
      (sparseEpoch P step_size x0 mg0 ga0 (inds.take m)).gradEst j = 0 := by
  intro m j hj
  show ((inds.take m).foldl (sparseStep P step_size)
      ⟨x0, mg0, ga0, fun _ => 0⟩).gradEst j = 0
  apply sparseFold_gradEst_zero P step_size (inds.take m)
    ⟨x0, mg0, ga0, fun _ => 0⟩
  · exact hblocks
  · intro j2 _
    rfl
  · exact hj

/-- A concrete sparse problem for the witness: two samples, three features,
two blocks; row 0 touches columns 0 and 2, row 1 touches column 1; block 0
is feature 0, block 1 is features 1 and 2; dot-product derivative,
identity prox. -/
def exSparseP : SparseProblem :=
  { nSamples := 2, nFeatures := 3, nBlocks := 2,
    A := { data := [1, 1, 1], indices := [0, 2, 1], indptr := [0, 2, 3] },
    b := fun _ => 1,
    gBlocks := fun j => if j = 0 then 0 else 1,
    fPrime := fun xs as bi => ((xs.zip as).map (fun q => q.1 * q.2)).sum - bi,
    gProx := fun _ v => v,
    beta := 1 }

/-- Witness for C1: the concrete problem `exSparseP`, one full epoch over
`[0, 1]`, checked after both samples at feature 1. -/
theorem sparse_accumulator_invariant_witness :
    (∀ j < exSparseP.nFeatures, exSparseP.gBlocks j < exSparseP.nBlocks) ∧
    (1 < exSparseP.nFeatures) ∧
    (sparseEpoch exSparseP 1 (fun _ => 0) (fun _ => 0) (fun _ => 0)
        ([0, 1].take 2)).gradEst 1 = 0 :=
  ⟨by decide, by decide,
   sparse_accumulator_invariant exSparseP 1 (fun _ => 0) (fun _ => 0)
     (fun _ => 0) [0, 1] (by decide) 2 1 (by decide)⟩
